import Mathlib

/-!
# Verification of `service.go` (canonical/go-service)

This file gives a shallow embedding of the lifecycle coordinator in
`src/service.go` and proves the claims of the specification about it.

The Go program is built from:
* an `errgroup.Group` with a derived cancellable context
  (`NewService`, service.go:28): the first goroutine to return a non-nil
  error stores it in a one-shot slot and cancels the shared context;
  `Wait` (service.go:79-81) joins every goroutine and returns the slot;
* an optional signal bridge goroutine (service.go:30-43), started only
  when at least one signal is configured, that selects between context
  cancellation (returning `ctx.Err()`) and a signal arriving on a
  capacity-1 channel (returning a `SignalError`);
* a shutdown-hook manager goroutine (service.go:45-59) that loops,
  selecting between receiving a hook on `shutdownC` (appending it to its
  slice) and context cancellation (running the queued hooks in reverse
  order and returning `ctx.Err()`);
* `OnShutdown` (service.go:86-92), which selects between handing the
  hook to the manager and, if the shared context is already cancelled
  (`doneC` closed), running the hook inline on the caller.

The embedding is a small-step state machine: a scheduler is a list of
actions (`Act`), each action is one atomic transition of one goroutine
(or of the environment: parent cancellation, OS signal delivery), and
nondeterministic `select` statements become several actions that are
simultaneously enabled.  A disabled action is a no-op, so executions are
arbitrary action lists folded over `step`.
-/

set_option autoImplicit false

namespace GoService

/-- An OS signal value (`os.Signal`).  `descr` is what its `String()`
method returns, e.g. `"user defined signal 1"` for `SIGUSR1`. -/
structure Sig where
  descr : String
deriving DecidableEq

/-- Models `os.Signal.String()`. -/
def Sig.String (g : Sig) : String := g.descr

/-- Type `SignalError` (service.go:96-98): the error returned when the
service shuts down due to receiving a signal. -/
structure SignalError where
  Signal : Sig
deriving DecidableEq

/-- Method `SignalError.Error` (service.go:101-103):
`return "received " + e.Signal.String()`. -/
def SignalError.Error (e : SignalError) : String :=
  "received " ++ e.Signal.String

/-- The error values that can reach the one-shot slot of the errgroup:
an error returned by a user task, a `SignalError` returned by the
signal bridge, or `ctx.Err()` (`context.Canceled`) as returned by the
hook manager and the bridge after cancellation.  User task errors are
identified by a numeric code. -/
inductive SvcError where
  | task (code : Nat)
  | signal (e : SignalError)
  | ctxErr
deriving DecidableEq

/-- Status of one user goroutine spawned with `Service.Go`
(service.go:72-74): still running, carrying the value its function will
return (`none` = nil), or finished. -/
inductive TaskSt where
  | run (r : Option SvcError)
  | fin
deriving DecidableEq

/-- Status of the hook-manager goroutine (service.go:46-59):
`accepting q` = in its select loop with queued hooks `q` (the `funcs`
slice, registration order); `draining l` = cancellation observed, hooks
`l` still to run (already reversed); `fin` = returned. -/
inductive MgrSt where
  | accepting (q : List Nat)
  | draining (l : List Nat)
  | fin
deriving DecidableEq

/-- Status of the signal-bridge goroutine (service.go:32-41):
`off` = never started (no signal configured), `waiting` = at its
select, `fin` = returned. -/
inductive BridgeSt where
  | off
  | waiting
  | fin
deriving DecidableEq

/-- The whole service state.  Hooks are identified by numeric ids. -/
structure SvcState where
  /-- The one-shot error slot of the errgroup (`g.err`). -/
  errSlot : Option SvcError
  /-- Whether the shared context is cancelled (`doneC` closed). -/
  canceled : Bool
  /-- The user goroutines spawned with `Service.Go`. -/
  tasks : List TaskSt
  /-- The hook-manager goroutine. -/
  mgr : MgrSt
  /-- The signal-bridge goroutine. -/
  bridge : BridgeSt
  /-- The capacity-1 signal channel `sigC` (service.go:31). -/
  sigBuf : Option Sig
  /-- The configured signal set (`sig ...` argument of `NewService`). -/
  sigs : List Sig
  /-- Hook ids of `OnShutdown` calls currently blocked in their select
  (service.go:87-91). -/
  pending : List Nat
  /-- The observable trace of executed hooks, in execution order. -/
  ranHooks : List Nat
deriving DecidableEq

/-- One atomic transition.  Each constructor is one step of one
goroutine (or the environment); a `select` with several ready cases is
modelled by several enabled actions. -/
inductive Act where
  /-- User task `i` returns; its error (if any) goes through
  `errOnce.Do` (errgroup semantics of `Service.Go`, service.go:72-74). -/
  | taskDone (i : Nat)
  /-- The parent context supplied to `NewService` is cancelled,
  cancelling the derived shared context. -/
  | parentCancel
  /-- The OS delivers configured signal `g` to `sigC`
  (`signal.Notify`, service.go:42); dropped if the buffer is full. -/
  | deliverSignal (g : Sig)
  /-- The bridge takes its `<-ctx.Done()` branch and returns
  `ctx.Err()` (service.go:34-35). -/
  | bridgeCtx
  /-- The bridge takes its `<-sigC` branch and returns a `SignalError`
  (service.go:36-39). -/
  | bridgeSig
  /-- The manager takes its `<-ctx.Done()` branch and starts draining
  (service.go:52). -/
  | mgrCancel
  /-- The manager runs the next queued hook of the drain
  (service.go:53-55). -/
  | mgrDrainStep
  /-- The drain is finished; the manager returns `ctx.Err()`
  (service.go:56). -/
  | mgrDone
  /-- A caller invokes `OnShutdown` with hook `h` and blocks at the
  select (service.go:87). -/
  | callOnShutdown (h : Nat)
  /-- The `s.shutdownC <- f` case of `OnShutdown` rendezvouses with the
  case `f := <-shutdownC` of the manager (service.go:88, 50-51). -/
  | handoff (h : Nat)
  /-- The `<-s.doneC` case of `OnShutdown` fires and the caller runs
  the hook inline (service.go:89-90). -/
  | inlineRun (h : Nat)
deriving DecidableEq

/-- List indexing for task statuses. -/
def getTask : List TaskSt → Nat → Option TaskSt
  | [], _ => none
  | t :: _, 0 => some t
  | _ :: ts, Nat.succ i => getTask ts i

/-- Mark task `i` finished. -/
def setFin : List TaskSt → Nat → List TaskSt
  | [], _ => []
  | _ :: ts, 0 => TaskSt.fin :: ts
  | t :: ts, Nat.succ i => t :: setFin ts i

/-- All user tasks have returned (the `wg.Wait` condition restricted to
user goroutines). -/
def allFin : List TaskSt → Bool
  | [] => true
  | TaskSt.fin :: ts => allFin ts
  | TaskSt.run _ :: _ => false

/-- The errors still to be returned by running tasks, in task order. -/
def remErrs : List TaskSt → List SvcError
  | [] => []
  | TaskSt.run (some e) :: ts => e :: remErrs ts
  | TaskSt.run none :: ts => remErrs ts
  | TaskSt.fin :: ts => remErrs ts

/-- The non-nil results among a list of task results. -/
def errsOf : List (Option SvcError) → List SvcError
  | [] => []
  | some e :: rs => e :: errsOf rs
  | none :: rs => errsOf rs

/-- Here `firstSome a b` is `a` unless `a` is `none`. -/
def firstSome {α : Type} : Option α → Option α → Option α
  | some x, _ => some x
  | none, b => b

/-- The `errOnce.Do` of the errgroup: the first non-nil error is stored and
cancels the shared context; later submissions are discarded. -/
def submit (s : SvcState) (e : SvcError) : SvcState :=
  match s.errSlot with
  | some _ => s
  | none => { s with errSlot := some e, canceled := true }

/-- One transition, split into the state change of the acting goroutine
and the error value (if any) it submits to `errOnce.Do`.  Disabled
actions leave the state unchanged and submit nothing. -/
def stepCore (s : SvcState) (a : Act) : SvcState × Option SvcError :=
  match a with
  | Act.taskDone i =>
    match getTask s.tasks i with
    | some (TaskSt.run r) => ({ s with tasks := setFin s.tasks i }, r)
    | _ => (s, none)
  | Act.parentCancel => ({ s with canceled := true }, none)
  | Act.deliverSignal g =>
    if g ∈ s.sigs ∧ s.sigBuf = none
    then ({ s with sigBuf := some g }, none) else (s, none)
  | Act.bridgeCtx =>
    match s.bridge, s.canceled with
    | BridgeSt.waiting, true => ({ s with bridge := BridgeSt.fin }, some SvcError.ctxErr)
    | _, _ => (s, none)
  | Act.bridgeSig =>
    match s.bridge, s.sigBuf with
    | BridgeSt.waiting, some g =>
      ({ s with bridge := BridgeSt.fin, sigBuf := none },
       some (SvcError.signal ⟨g⟩))
    | _, _ => (s, none)
  | Act.mgrCancel =>
    match s.mgr, s.canceled with
    | MgrSt.accepting q, true => ({ s with mgr := MgrSt.draining q.reverse }, none)
    | _, _ => (s, none)
  | Act.mgrDrainStep =>
    match s.mgr with
    | MgrSt.draining (h :: rest) =>
      ({ s with mgr := MgrSt.draining rest, ranHooks := s.ranHooks ++ [h] }, none)
    | _ => (s, none)
  | Act.mgrDone =>
    match s.mgr with
    | MgrSt.draining [] => ({ s with mgr := MgrSt.fin }, some SvcError.ctxErr)
    | _ => (s, none)
  | Act.callOnShutdown h => ({ s with pending := s.pending ++ [h] }, none)
  | Act.handoff h =>
    match s.mgr with
    | MgrSt.accepting q =>
      if h ∈ s.pending
      then ({ s with mgr := MgrSt.accepting (q ++ [h]), pending := s.pending.erase h }, none)
      else (s, none)
    | _ => (s, none)
  | Act.inlineRun h =>
    if s.canceled = true ∧ h ∈ s.pending
    then ({ s with pending := s.pending.erase h, ranHooks := s.ranHooks ++ [h] }, none)
    else (s, none)

/-- One full transition: the own state change of the goroutine followed by
its error submission (if any) to the one-shot slot. -/
def step (s : SvcState) (a : Act) : SvcState :=
  match stepCore s a with
  | (s1, none) => s1
  | (s1, some e) => submit s1 e

/-- The error this action submits to `errOnce.Do` from state `s`
(before the first-wins filtering). -/
def stepSubs (s : SvcState) (a : Act) : List SvcError :=
  (stepCore s a).2.toList

/-- Run a schedule. -/
def runActs (s : SvcState) (acts : List Act) : SvcState :=
  acts.foldl step s

/-- The errors submitted along a schedule, in submission order. -/
def runSubs : SvcState → List Act → List SvcError
  | _, [] => []
  | s, a :: rest => stepSubs s a ++ runSubs (step s a) rest

/-- Constructor `NewService` (service.go:27-66): fresh errgroup with empty slot and
uncancelled derived context, the manager accepting with an empty queue,
and the bridge started iff at least one signal is configured.  The user
tasks later spawned with `Service.Go` are listed with the results their
functions will return. -/
def NewService (sigs : List Sig) (results : List (Option SvcError)) : SvcState :=
  { errSlot := none
    canceled := false
    tasks := results.map TaskSt.run
    mgr := MgrSt.accepting []
    bridge := if sigs.isEmpty then BridgeSt.off else BridgeSt.waiting
    sigBuf := none
    sigs := sigs
    pending := []
    ranHooks := [] }

/-- The manager goroutine has returned. -/
def MgrSt.isFin : MgrSt → Bool
  | MgrSt.fin => true
  | _ => false

/-- The bridge goroutine is not outstanding (never started, or
returned). -/
def BridgeSt.joined : BridgeSt → Bool
  | BridgeSt.waiting => false
  | _ => true

/-- Predicate for when `Service.Wait` (service.go:79-81) can return: the `wg.Wait` inside `g.Wait`
has seen every goroutine — all user tasks, the hook manager, and the
bridge if it was started — finish. -/
def waitReady (s : SvcState) : Bool :=
  allFin s.tasks && s.mgr.isFin && s.bridge.joined

/-- The value `Service.Wait` returns once `waitReady`: the one-shot
slot (`none` = nil error). -/
def waitResult (s : SvcState) : Option SvcError :=
  s.errSlot

/-- Schedules containing only transitions of the program itself: no parent
cancellation and no OS signal delivery. -/
def noExt : Act → Bool
  | Act.parentCancel => false
  | Act.deliverSignal _ => false
  | _ => true

/-! ## Basic lemmas about one transition -/

@[simp] theorem firstSome_none_right {α : Type} (a : Option α) :
    firstSome a none = a := by
  cases a <;> rfl

@[simp] theorem firstSome_some_left {α : Type} (x : α) (b : Option α) :
    firstSome (some x) b = some x := rfl

@[simp] theorem firstSome_none_left {α : Type} (b : Option α) :
    firstSome none b = b := rfl

theorem firstSome_assoc {α : Type} (a b c : Option α) :
    firstSome (firstSome a b) c = firstSome a (firstSome b c) := by
  cases a <;> rfl

theorem head?_append {α : Type} (l1 l2 : List α) :
    (l1 ++ l2).head? = firstSome l1.head? l2.head? := by
  cases l1 <;> rfl

@[simp] theorem toList_head? {α : Type} (o : Option α) :
    o.toList.head? = o := by
  cases o <;> rfl

theorem submit_errSlot (s : SvcState) (e : SvcError) :
    (submit s e).errSlot = firstSome s.errSlot (some e) := by
  cases h : s.errSlot <;> simp [submit, h, firstSome]

theorem submit_canceled (s : SvcState) (e : SvcError) (h : s.canceled = true) :
    (submit s e).canceled = true := by
  cases hs : s.errSlot <;> simp [submit, hs, h]

theorem submit_rest (s : SvcState) (e : SvcError) :
    (submit s e).tasks = s.tasks ∧ (submit s e).mgr = s.mgr ∧
    (submit s e).bridge = s.bridge ∧ (submit s e).sigBuf = s.sigBuf ∧
    (submit s e).sigs = s.sigs ∧ (submit s e).pending = s.pending ∧
    (submit s e).ranHooks = s.ranHooks := by
  cases hs : s.errSlot <;> simp [submit, hs]

theorem stepCore_errSlot (s : SvcState) (a : Act) :
    (stepCore s a).1.errSlot = s.errSlot := by
  cases a <;> simp only [stepCore] <;> (repeat' split) <;> rfl

theorem stepCore_canceled (s : SvcState) (a : Act) (h : s.canceled = true) :
    (stepCore s a).1.canceled = true := by
  cases a <;> simp only [stepCore] <;> (repeat' split) <;> simp [h]

theorem step_errSlot (s : SvcState) (a : Act) :
    (step s a).errSlot = firstSome s.errSlot (stepCore s a).2 := by
  rcases h : stepCore s a with ⟨s1, o⟩
  have h1 : s1.errSlot = s.errSlot := by
    have := stepCore_errSlot s a; rw [h] at this; exact this
  cases o with
  | none => simp [step, h, h1]
  | some e => simp [step, h, submit_errSlot, h1]

theorem step_canceled (s : SvcState) (a : Act) (h : s.canceled = true) :
    (step s a).canceled = true := by
  rcases hc : stepCore s a with ⟨s1, o⟩
  have h1 : s1.canceled = true := by
    have := stepCore_canceled s a h; rw [hc] at this; exact this
  cases o with
  | none => simp [step, hc, h1]
  | some e => simp [step, hc, submit_canceled _ _ h1]

/-! ## One equation per action -/

theorem step_taskDone_run_none (s : SvcState) (i : Nat)
    (h : getTask s.tasks i = some (TaskSt.run none)) :
    step s (Act.taskDone i) = { s with tasks := setFin s.tasks i } := by
  simp [step, stepCore, h]

theorem step_taskDone_run_some (s : SvcState) (i : Nat) (e : SvcError)
    (h : getTask s.tasks i = some (TaskSt.run (some e))) :
    step s (Act.taskDone i) = submit { s with tasks := setFin s.tasks i } e := by
  simp [step, stepCore, h]

theorem step_taskDone_fin (s : SvcState) (i : Nat)
    (h : getTask s.tasks i = some TaskSt.fin) :
    step s (Act.taskDone i) = s := by
  simp [step, stepCore, h]

theorem step_taskDone_oob (s : SvcState) (i : Nat)
    (h : getTask s.tasks i = none) :
    step s (Act.taskDone i) = s := by
  simp [step, stepCore, h]

theorem step_parentCancel (s : SvcState) :
    step s Act.parentCancel = { s with canceled := true } := rfl

theorem step_callOnShutdown (s : SvcState) (h : Nat) :
    step s (Act.callOnShutdown h) = { s with pending := s.pending ++ [h] } := rfl

theorem step_deliverSignal_pos (s : SvcState) (g : Sig)
    (hg : g ∈ s.sigs) (hb : s.sigBuf = none) :
    step s (Act.deliverSignal g) = { s with sigBuf := some g } := by
  simp [step, stepCore, hg, hb]

theorem step_deliverSignal_neg (s : SvcState) (g : Sig)
    (hn : ¬(g ∈ s.sigs ∧ s.sigBuf = none)) :
    step s (Act.deliverSignal g) = s := by
  simp [step, stepCore, hn]

theorem step_bridgeCtx_pos (s : SvcState)
    (hb : s.bridge = BridgeSt.waiting) (hc : s.canceled = true) :
    step s Act.bridgeCtx = submit { s with bridge := BridgeSt.fin } SvcError.ctxErr := by
  simp [step, stepCore, hb, hc]

theorem step_bridgeCtx_notCanceled (s : SvcState) (hc : s.canceled = false) :
    step s Act.bridgeCtx = s := by
  cases hb : s.bridge <;> simp [step, stepCore, hb, hc]

theorem step_bridgeCtx_notWaiting (s : SvcState) (hb : s.bridge ≠ BridgeSt.waiting) :
    step s Act.bridgeCtx = s := by
  cases hb2 : s.bridge with
  | off => cases hc : s.canceled <;> simp [step, stepCore, hb2, hc]
  | waiting => exact absurd hb2 hb
  | fin => cases hc : s.canceled <;> simp [step, stepCore, hb2, hc]

theorem step_bridgeSig_pos (s : SvcState) (g : Sig)
    (hb : s.bridge = BridgeSt.waiting) (hs : s.sigBuf = some g) :
    step s Act.bridgeSig =
      submit { s with bridge := BridgeSt.fin, sigBuf := none }
        (SvcError.signal ⟨g⟩) := by
  simp [step, stepCore, hb, hs]

theorem step_bridgeSig_noBuf (s : SvcState) (hs : s.sigBuf = none) :
    step s Act.bridgeSig = s := by
  cases hb : s.bridge <;> simp [step, stepCore, hb, hs]

theorem step_mgrCancel_pos (s : SvcState) (q : List Nat)
    (hm : s.mgr = MgrSt.accepting q) (hc : s.canceled = true) :
    step s Act.mgrCancel = { s with mgr := MgrSt.draining q.reverse } := by
  simp [step, stepCore, hm, hc]

theorem step_mgrCancel_notCanceled (s : SvcState) (hc : s.canceled = false) :
    step s Act.mgrCancel = s := by
  cases hm : s.mgr <;> simp [step, stepCore, hm, hc]

theorem step_mgrCancel_notAccepting (s : SvcState)
    (hm : ∀ q : List Nat, s.mgr ≠ MgrSt.accepting q) :
    step s Act.mgrCancel = s := by
  cases hm2 : s.mgr with
  | accepting q => exact absurd hm2 (hm q)
  | draining l => cases hc : s.canceled <;> simp [step, stepCore, hm2, hc]
  | fin => cases hc : s.canceled <;> simp [step, stepCore, hm2, hc]

theorem step_mgrDrainStep_pos (s : SvcState) (h : Nat) (rest : List Nat)
    (hm : s.mgr = MgrSt.draining (h :: rest)) :
    step s Act.mgrDrainStep =
      { s with mgr := MgrSt.draining rest, ranHooks := s.ranHooks ++ [h] } := by
  simp [step, stepCore, hm]

theorem step_mgrDrainStep_accepting (s : SvcState) (q : List Nat)
    (hm : s.mgr = MgrSt.accepting q) :
    step s Act.mgrDrainStep = s := by
  simp [step, stepCore, hm]

theorem step_mgrDone_pos (s : SvcState) (hm : s.mgr = MgrSt.draining []) :
    step s Act.mgrDone = submit { s with mgr := MgrSt.fin } SvcError.ctxErr := by
  simp [step, stepCore, hm]

theorem step_mgrDone_accepting (s : SvcState) (q : List Nat)
    (hm : s.mgr = MgrSt.accepting q) :
    step s Act.mgrDone = s := by
  simp [step, stepCore, hm]

theorem step_handoff_pos (s : SvcState) (q : List Nat) (h : Nat)
    (hm : s.mgr = MgrSt.accepting q) (hp : h ∈ s.pending) :
    step s (Act.handoff h) =
      { s with mgr := MgrSt.accepting (q ++ [h]), pending := s.pending.erase h } := by
  simp [step, stepCore, hm, hp]

theorem step_handoff_notMem (s : SvcState) (q : List Nat) (h : Nat)
    (hm : s.mgr = MgrSt.accepting q) (hp : h ∉ s.pending) :
    step s (Act.handoff h) = s := by
  simp [step, stepCore, hm, hp]

theorem step_handoff_notAccepting (s : SvcState) (h : Nat)
    (hm : ∀ q : List Nat, s.mgr ≠ MgrSt.accepting q) :
    step s (Act.handoff h) = s := by
  cases hm2 : s.mgr with
  | accepting q => exact absurd hm2 (hm q)
  | draining l => simp [step, stepCore, hm2]
  | fin => simp [step, stepCore, hm2]

theorem step_inlineRun_pos (s : SvcState) (h : Nat)
    (hc : s.canceled = true) (hp : h ∈ s.pending) :
    step s (Act.inlineRun h) =
      { s with pending := s.pending.erase h, ranHooks := s.ranHooks ++ [h] } := by
  simp [step, stepCore, hc, hp]

theorem step_inlineRun_notCanceled (s : SvcState) (h : Nat)
    (hc : s.canceled = false) :
    step s (Act.inlineRun h) = s := by
  simp [step, stepCore, hc]

/-! ## Lemmas about whole runs -/

@[simp] theorem runActs_nil (s : SvcState) : runActs s [] = s := rfl

@[simp] theorem runActs_cons (s : SvcState) (a : Act) (acts : List Act) :
    runActs s (a :: acts) = runActs (step s a) acts := rfl

theorem runActs_append (s : SvcState) (l1 l2 : List Act) :
    runActs s (l1 ++ l2) = runActs (runActs s l1) l2 := by
  simp [runActs, List.foldl_append]

/-- Refinement of the one-shot slot: after any schedule it holds the
first error submitted along that schedule (or the error it already
held). -/
theorem runActs_errSlot (acts : List Act) : ∀ s : SvcState,
    (runActs s acts).errSlot = firstSome s.errSlot (runSubs s acts).head? := by
  induction acts with
  | nil => intro s; simp [runSubs]
  | cons a rest ih =>
    intro s
    rw [runActs_cons, ih, runSubs, head?_append, stepSubs, toList_head?,
        step_errSlot, firstSome_assoc]

/-- Once the slot is occupied it never changes (write-once). -/
theorem runActs_errSlot_some (acts : List Act) (s : SvcState) (e : SvcError)
    (h : s.errSlot = some e) : (runActs s acts).errSlot = some e := by
  rw [runActs_errSlot, h]; rfl

/-- Cancellation is permanent. -/
theorem runActs_canceled (acts : List Act) : ∀ s : SvcState,
    s.canceled = true → (runActs s acts).canceled = true := by
  induction acts with
  | nil => intro s h; simpa using h
  | cons a rest ih => intro s h; exact ih (step s a) (step_canceled s a h)

/-! ## Task-list lemmas -/

theorem remErrs_map_run (rs : List (Option SvcError)) :
    remErrs (rs.map TaskSt.run) = errsOf rs := by
  induction rs with
  | nil => rfl
  | cons r rest ih => cases r <;> simp [remErrs, errsOf, ih]

theorem remErrs_setFin_none (ts : List TaskSt) : ∀ i : Nat,
    getTask ts i = some (TaskSt.run none) →
    remErrs (setFin ts i) = remErrs ts := by
  induction ts with
  | nil => intro i h; simp [getTask] at h
  | cons t rest ih =>
    intro i h
    cases i with
    | zero =>
      simp [getTask] at h
      subst h
      simp [setFin, remErrs]
    | succ j =>
      simp [getTask] at h
      cases t with
      | fin => simp [setFin, remErrs, ih j h]
      | run r => cases r <;> simp [setFin, remErrs, ih j h]

theorem mem_remErrs_of_getTask (ts : List TaskSt) : ∀ (i : Nat) (e : SvcError),
    getTask ts i = some (TaskSt.run (some e)) → e ∈ remErrs ts := by
  induction ts with
  | nil => intro i e h; simp [getTask] at h
  | cons t rest ih =>
    intro i e h
    cases i with
    | zero =>
      simp [getTask] at h
      subst h
      simp [remErrs]
    | succ j =>
      simp [getTask] at h
      cases t with
      | fin => simpa [remErrs] using ih j e h
      | run r => cases r <;> simp [remErrs, ih j e h]

theorem firstSome_isSome {α : Type} (a : Option α) (x : α) :
    (firstSome a (some x)).isSome = true := by
  cases a <;> rfl

/-! ## Invariant: when the hook manager has returned, the slot is
occupied -/

/-- The hook manager only ever returns `ctx.Err()` after cancellation
(service.go:56), and that submission fills the slot if nothing else
has; so once the manager has finished, the one-shot slot is some. -/
def slotAtFin (s : SvcState) : Prop :=
  s.mgr = MgrSt.fin → s.errSlot.isSome = true

theorem slotAtFin_step (s : SvcState) (a : Act) (hinv : slotAtFin s) :
    slotAtFin (step s a) := by
  unfold slotAtFin at *
  cases a with
  | taskDone i =>
    cases hg : getTask s.tasks i with
    | none => rw [step_taskDone_oob s i hg]; exact hinv
    | some t =>
      cases t with
      | fin => rw [step_taskDone_fin s i hg]; exact hinv
      | run r =>
        cases r with
        | none => rw [step_taskDone_run_none s i hg]; intro hm; exact hinv hm
        | some e =>
          rw [step_taskDone_run_some s i e hg]
          intro _
          rw [submit_errSlot]
          exact firstSome_isSome _ _
  | parentCancel => rw [step_parentCancel]; intro hm; exact hinv hm
  | deliverSignal g =>
    by_cases hd : g ∈ s.sigs ∧ s.sigBuf = none
    · rw [step_deliverSignal_pos s g hd.1 hd.2]; intro hm; exact hinv hm
    · rw [step_deliverSignal_neg s g hd]; exact hinv
  | bridgeCtx =>
    by_cases hb : s.bridge = BridgeSt.waiting
    · cases hc : s.canceled with
      | false => rw [step_bridgeCtx_notCanceled s hc]; exact hinv
      | true =>
        rw [step_bridgeCtx_pos s hb hc]
        intro hm
        rw [submit_errSlot]
        exact firstSome_isSome _ _
    · rw [step_bridgeCtx_notWaiting s hb]; exact hinv
  | bridgeSig =>
    cases hs : s.sigBuf with
    | none => rw [step_bridgeSig_noBuf s hs]; exact hinv
    | some g =>
      by_cases hb : s.bridge = BridgeSt.waiting
      · rw [step_bridgeSig_pos s g hb hs]
        intro hm
        rw [submit_errSlot]
        exact firstSome_isSome _ _
      · cases hb2 : s.bridge with
        | off => simp [step, stepCore, hb2, hs]; exact hinv
        | waiting => exact absurd hb2 hb
        | fin => simp [step, stepCore, hb2, hs]; exact hinv
  | mgrCancel =>
    cases hm : s.mgr with
    | accepting q =>
      cases hc : s.canceled with
      | false => rw [step_mgrCancel_notCanceled s hc]; exact hinv
      | true =>
        rw [step_mgrCancel_pos s q hm hc]
        intro hfin
        exact absurd hfin (by simp)
    | draining l => rw [step_mgrCancel_notAccepting s (by simp [hm])]; exact hinv
    | fin => rw [step_mgrCancel_notAccepting s (by simp [hm])]; exact hinv
  | mgrDrainStep =>
    cases hm : s.mgr with
    | accepting q => rw [step_mgrDrainStep_accepting s q hm]; exact hinv
    | draining l =>
      cases l with
      | nil => simp [step, stepCore, hm]
      | cons h rest =>
        rw [step_mgrDrainStep_pos s h rest hm]
        intro hfin
        exact absurd hfin (by simp)
    | fin => simp [step, stepCore, hm]; exact hinv hm
  | mgrDone =>
    cases hm : s.mgr with
    | accepting q => rw [step_mgrDone_accepting s q hm]; exact hinv
    | draining l =>
      cases l with
      | nil =>
        rw [step_mgrDone_pos s hm]
        intro _
        rw [submit_errSlot]
        exact firstSome_isSome _ _
      | cons h rest => simp [step, stepCore, hm]
    | fin => simp [step, stepCore, hm]; exact hinv hm
  | callOnShutdown h => rw [step_callOnShutdown]; intro hm; exact hinv hm
  | handoff h =>
    cases hm : s.mgr with
    | accepting q =>
      by_cases hp : h ∈ s.pending
      · rw [step_handoff_pos s q h hm hp]
        intro hfin
        exact absurd hfin (by simp)
      · rw [step_handoff_notMem s q h hm hp]; exact hinv
    | draining l => rw [step_handoff_notAccepting s h (by simp [hm])]; exact hinv
    | fin => rw [step_handoff_notAccepting s h (by simp [hm])]; exact hinv
  | inlineRun h =>
    cases hc : s.canceled with
    | false => rw [step_inlineRun_notCanceled s h hc]; exact hinv
    | true =>
      by_cases hp : h ∈ s.pending
      · rw [step_inlineRun_pos s h hc hp]; intro hm; exact hinv hm
      · simp [step, stepCore, hc, hp]; exact hinv

theorem slotAtFin_run (acts : List Act) : ∀ s : SvcState,
    slotAtFin s → slotAtFin (runActs s acts) := by
  induction acts with
  | nil => intro s h; simpa using h
  | cons a rest ih => intro s h; exact ih (step s a) (slotAtFin_step s a h)

theorem slotAtFin_NewService (sigs : List Sig) (rs : List (Option SvcError)) :
    slotAtFin (NewService sigs rs) := by
  intro h
  simp [NewService] at h

/-! ## Invariant: the manager leaves its accepting loop only after
cancellation -/

theorem submit_of_some (s : SvcState) (e x : SvcError) (h : s.errSlot = some x) :
    submit s e = s := by
  simp [submit, h]

theorem submit_of_none (s : SvcState) (e : SvcError) (h : s.errSlot = none) :
    submit s e = { s with errSlot := some e, canceled := true } := by
  simp [submit, h]

/-- The manager goroutine is in its select loop until the shared
context is cancelled (it can only leave via the `<-ctx.Done()` branch,
service.go:52). -/
def cancelBeforeMgr (s : SvcState) : Prop :=
  (∃ q : List Nat, s.mgr = MgrSt.accepting q) ∨ s.canceled = true

theorem cancelBeforeMgr_step (s : SvcState) (a : Act)
    (hinv : cancelBeforeMgr s) : cancelBeforeMgr (step s a) := by
  cases hc : s.canceled with
  | true => exact Or.inr (step_canceled s a hc)
  | false =>
    rcases hinv with ⟨q, hm⟩ | hcc
    · cases a with
      | taskDone i =>
        cases hg : getTask s.tasks i with
        | none => rw [step_taskDone_oob s i hg]; exact Or.inl ⟨q, hm⟩
        | some t =>
          cases t with
          | fin => rw [step_taskDone_fin s i hg]; exact Or.inl ⟨q, hm⟩
          | run r =>
            cases r with
            | none =>
              rw [step_taskDone_run_none s i hg]
              exact Or.inl ⟨q, hm⟩
            | some e =>
              rw [step_taskDone_run_some s i e hg]
              cases hs : s.errSlot with
              | some x => rw [submit_of_some _ e x rfl]; exact Or.inl ⟨q, hm⟩
              | none => rw [submit_of_none _ e rfl]; exact Or.inr rfl
      | parentCancel => rw [step_parentCancel]; exact Or.inr rfl
      | deliverSignal g =>
        by_cases hd : g ∈ s.sigs ∧ s.sigBuf = none
        · rw [step_deliverSignal_pos s g hd.1 hd.2]; exact Or.inl ⟨q, hm⟩
        · rw [step_deliverSignal_neg s g hd]; exact Or.inl ⟨q, hm⟩
      | bridgeCtx => rw [step_bridgeCtx_notCanceled s hc]; exact Or.inl ⟨q, hm⟩
      | bridgeSig =>
        cases hs : s.sigBuf with
        | none => rw [step_bridgeSig_noBuf s hs]; exact Or.inl ⟨q, hm⟩
        | some g =>
          cases hb : s.bridge with
          | waiting =>
            rw [step_bridgeSig_pos s g hb hs]
            cases he : s.errSlot with
            | some x => rw [submit_of_some _ _ x rfl]; exact Or.inl ⟨q, hm⟩
            | none => rw [submit_of_none _ _ rfl]; exact Or.inr rfl
          | off => simp [step, stepCore, hb, hs]; exact Or.inl ⟨q, hm⟩
          | fin => simp [step, stepCore, hb, hs]; exact Or.inl ⟨q, hm⟩
      | mgrCancel => rw [step_mgrCancel_notCanceled s hc]; exact Or.inl ⟨q, hm⟩
      | mgrDrainStep => rw [step_mgrDrainStep_accepting s q hm]; exact Or.inl ⟨q, hm⟩
      | mgrDone => rw [step_mgrDone_accepting s q hm]; exact Or.inl ⟨q, hm⟩
      | callOnShutdown h => rw [step_callOnShutdown]; exact Or.inl ⟨q, hm⟩
      | handoff h =>
        by_cases hp : h ∈ s.pending
        · rw [step_handoff_pos s q h hm hp]; exact Or.inl ⟨q ++ [h], rfl⟩
        · rw [step_handoff_notMem s q h hm hp]; exact Or.inl ⟨q, hm⟩
      | inlineRun h =>
        rw [step_inlineRun_notCanceled s h hc]; exact Or.inl ⟨q, hm⟩
    · rw [hcc] at hc; cases hc

theorem cancelBeforeMgr_run (acts : List Act) : ∀ s : SvcState,
    cancelBeforeMgr s → cancelBeforeMgr (runActs s acts) := by
  induction acts with
  | nil => intro s h; simpa using h
  | cons a rest ih => intro s h; exact ih (step s a) (cancelBeforeMgr_step s a h)

theorem cancelBeforeMgr_NewService (sigs : List Sig) (rs : List (Option SvcError)) :
    cancelBeforeMgr (NewService sigs rs) :=
  Or.inl ⟨[], rfl⟩

/-! ## Reading off `Wait` -/

theorem waitReady_parts (s : SvcState) (h : waitReady s = true) :
    allFin s.tasks = true ∧ s.mgr = MgrSt.fin ∧ s.bridge.joined = true := by
  simp only [waitReady, Bool.and_eq_true] at h
  refine ⟨h.1.1, ?_, h.2⟩
  have h2 := h.1.2
  cases hm : s.mgr with
  | accepting q => rw [hm] at h2; simp [MgrSt.isFin] at h2
  | draining l => rw [hm] at h2; simp [MgrSt.isFin] at h2
  | fin => rfl

/-! ## Invariant: with no failing task, no signal and no parent
cancellation, the service stays quiescent -/

/-- No error has been recorded, the context is uncancelled, no running
task will ever return an error, the manager is still accepting, the
signal buffer is empty and no hook has run. -/
def quiescent (s : SvcState) : Prop :=
  s.errSlot = none ∧ s.canceled = false ∧ remErrs s.tasks = [] ∧
  (∃ q : List Nat, s.mgr = MgrSt.accepting q) ∧ s.sigBuf = none ∧
  s.ranHooks = []

theorem quiescent_step (s : SvcState) (a : Act) (ha : noExt a = true)
    (hinv : quiescent s) : quiescent (step s a) := by
  obtain ⟨h1, h2, h3, ⟨q, hq⟩, h5, h6⟩ := hinv
  cases a with
  | taskDone i =>
    cases hg : getTask s.tasks i with
    | none => rw [step_taskDone_oob s i hg]; exact ⟨h1, h2, h3, ⟨q, hq⟩, h5, h6⟩
    | some t =>
      cases t with
      | fin => rw [step_taskDone_fin s i hg]; exact ⟨h1, h2, h3, ⟨q, hq⟩, h5, h6⟩
      | run r =>
        cases r with
        | none =>
          rw [step_taskDone_run_none s i hg]
          refine ⟨h1, h2, ?_, ⟨q, hq⟩, h5, h6⟩
          rw [remErrs_setFin_none s.tasks i hg] at *
          exact h3
        | some e =>
          have := mem_remErrs_of_getTask s.tasks i e hg
          rw [h3] at this
          simp at this
  | parentCancel => simp [noExt] at ha
  | deliverSignal g => simp [noExt] at ha
  | bridgeCtx => rw [step_bridgeCtx_notCanceled s h2]; exact ⟨h1, h2, h3, ⟨q, hq⟩, h5, h6⟩
  | bridgeSig => rw [step_bridgeSig_noBuf s h5]; exact ⟨h1, h2, h3, ⟨q, hq⟩, h5, h6⟩
  | mgrCancel => rw [step_mgrCancel_notCanceled s h2]; exact ⟨h1, h2, h3, ⟨q, hq⟩, h5, h6⟩
  | mgrDrainStep => rw [step_mgrDrainStep_accepting s q hq]; exact ⟨h1, h2, h3, ⟨q, hq⟩, h5, h6⟩
  | mgrDone => rw [step_mgrDone_accepting s q hq]; exact ⟨h1, h2, h3, ⟨q, hq⟩, h5, h6⟩
  | callOnShutdown h => rw [step_callOnShutdown]; exact ⟨h1, h2, h3, ⟨q, hq⟩, h5, h6⟩
  | handoff h =>
    by_cases hp : h ∈ s.pending
    · rw [step_handoff_pos s q h hq hp]; exact ⟨h1, h2, h3, ⟨q ++ [h], rfl⟩, h5, h6⟩
    · rw [step_handoff_notMem s q h hq hp]; exact ⟨h1, h2, h3, ⟨q, hq⟩, h5, h6⟩
  | inlineRun h => rw [step_inlineRun_notCanceled s h h2]; exact ⟨h1, h2, h3, ⟨q, hq⟩, h5, h6⟩

theorem quiescent_run (acts : List Act) : ∀ s : SvcState,
    quiescent s → (∀ a ∈ acts, noExt a = true) → quiescent (runActs s acts) := by
  induction acts with
  | nil => intro s h _; simpa using h
  | cons a rest ih =>
    intro s h hall
    exact ih (step s a) (quiescent_step s a (hall a (by simp)) h)
      (fun b hb => hall b (by simp [hb]))

theorem quiescent_NewService (sigs : List Sig) (rs : List (Option SvcError))
    (hnil : errsOf rs = []) : quiescent (NewService sigs rs) := by
  refine ⟨rfl, rfl, ?_, ⟨[], rfl⟩, rfl, rfl⟩
  show remErrs (rs.map TaskSt.run) = []
  rw [remErrs_map_run, hnil]

/-! ## Claim theorems -/

/-- C9: whenever `Wait` can return, the error it returns is non-nil:
`Wait` joins the hook-manager goroutine, which only returns after
cancellation and then submits `ctx.Err()` (non-nil) to the one-shot
slot, so the slot is occupied by the time `Wait` returns. -/
theorem wait_error_nonnil (sigs : List Sig) (rs : List (Option SvcError))
    (acts : List Act)
    (hw : waitReady (runActs (NewService sigs rs) acts) = true) :
    (waitResult (runActs (NewService sigs rs) acts)).isSome = true := by
  have hfin := (waitReady_parts _ hw).2.1
  exact slotAtFin_run acts _ (slotAtFin_NewService sigs rs) hfin

theorem wait_error_nonnil_witness :
    waitReady (runActs (NewService [] [some (SvcError.task 0)])
      [Act.taskDone 0, Act.mgrCancel, Act.mgrDone]) = true ∧
    (waitResult (runActs (NewService [] [some (SvcError.task 0)])
      [Act.taskDone 0, Act.mgrCancel, Act.mgrDone])).isSome = true :=
  ⟨by decide, wait_error_nonnil [] [some (SvcError.task 0)]
    [Act.taskDone 0, Act.mgrCancel, Act.mgrDone] (by decide)⟩

/-- C8: if no task ever fails, no signal arrives and the parent
cancellation never fires, `Wait` never returns (no schedule of the
transitions of the program itself makes the join ready, because the hook
manager stays in its accepting loop); and in general `Wait` can only
return after the shared context has been cancelled. -/
theorem wait_blocks_without_cancellation (sigs : List Sig)
    (rs : List (Option SvcError)) :
    (∀ acts : List Act, errsOf rs = [] → (∀ a ∈ acts, noExt a = true) →
       waitReady (runActs (NewService sigs rs) acts) = false) ∧
    (∀ acts : List Act,
       waitReady (runActs (NewService sigs rs) acts) = true →
       (runActs (NewService sigs rs) acts).canceled = true) := by
  constructor
  · intro acts hnil hext
    cases hw : waitReady (runActs (NewService sigs rs) acts) with
    | false => rfl
    | true =>
      exfalso
      have hfin := (waitReady_parts _ hw).2.1
      have hqui := quiescent_run acts _ (quiescent_NewService sigs rs hnil) hext
      obtain ⟨q, hq⟩ := hqui.2.2.2.1
      rw [hq] at hfin
      cases hfin
  · intro acts hw
    have hfin := (waitReady_parts _ hw).2.1
    rcases cancelBeforeMgr_run acts _ (cancelBeforeMgr_NewService sigs rs) with ⟨q, hq⟩ | hc
    · rw [hq] at hfin; cases hfin
    · exact hc

theorem wait_blocks_without_cancellation_witness :
    errsOf ([none] : List (Option SvcError)) = [] ∧
    (∀ a ∈ ([Act.taskDone 0, Act.mgrCancel, Act.mgrDone] : List Act), noExt a = true) ∧
    waitReady (runActs (NewService [] [none])
      [Act.taskDone 0, Act.mgrCancel, Act.mgrDone]) = false :=
  ⟨by decide, by decide,
    (wait_blocks_without_cancellation [] [none]).1
      [Act.taskDone 0, Act.mgrCancel, Act.mgrDone] (by decide) (by decide)⟩

/-- C10: if the shared context is never cancelled, hooks registered via
`OnShutdown` are appended to the queue of the manager (a successful handoff
appends and does not run the hook) but never executed: no hook run is
ever recorded and the manager stays in its accepting state. -/
theorem hooks_unrun_until_cancellation (sigs : List Sig)
    (rs : List (Option SvcError)) (acts : List Act)
    (hnil : errsOf rs = []) (hext : ∀ a ∈ acts, noExt a = true) :
    (runActs (NewService sigs rs) acts).ranHooks = [] ∧
    (∃ q : List Nat, (runActs (NewService sigs rs) acts).mgr = MgrSt.accepting q) ∧
    (∀ (q : List Nat) (h : Nat),
       (runActs (NewService sigs rs) acts).mgr = MgrSt.accepting q →
       h ∈ (runActs (NewService sigs rs) acts).pending →
       (step (runActs (NewService sigs rs) acts) (Act.handoff h)).mgr
           = MgrSt.accepting (q ++ [h]) ∧
       (step (runActs (NewService sigs rs) acts) (Act.handoff h)).ranHooks
           = []) := by
  have hqui := quiescent_run acts _ (quiescent_NewService sigs rs hnil) hext
  refine ⟨hqui.2.2.2.2.2, hqui.2.2.2.1, ?_⟩
  intro q h hq hp
  rw [step_handoff_pos _ q h hq hp]
  exact ⟨rfl, hqui.2.2.2.2.2⟩

/-- Exactly-one-failure invariant: either no error has been recorded
yet — and then the context is uncancelled, the manager is still in its
accepting loop, the signal buffer is empty and the unique error `E` is
still to be returned by its task — or `E` itself is already the
recorded cause. -/
def firstErrInv (E : SvcError) (s : SvcState) : Prop :=
  (s.errSlot = none ∧ s.canceled = false ∧ remErrs s.tasks = [E] ∧
   (∃ q : List Nat, s.mgr = MgrSt.accepting q) ∧ s.sigBuf = none) ∨
  s.errSlot = some E

theorem firstErrInv_step (E : SvcError) (s : SvcState) (a : Act)
    (ha : noExt a = true) (hinv : firstErrInv E s) :
    firstErrInv E (step s a) := by
  rcases hinv with ⟨h1, h2, h3, ⟨q, hq⟩, h5⟩ | hB
  · cases a with
    | taskDone i =>
      cases hg : getTask s.tasks i with
      | none =>
        rw [step_taskDone_oob s i hg]
        exact Or.inl ⟨h1, h2, h3, ⟨q, hq⟩, h5⟩
      | some t =>
        cases t with
        | fin =>
          rw [step_taskDone_fin s i hg]
          exact Or.inl ⟨h1, h2, h3, ⟨q, hq⟩, h5⟩
        | run r =>
          cases r with
          | none =>
            rw [step_taskDone_run_none s i hg]
            refine Or.inl ⟨h1, h2, ?_, ⟨q, hq⟩, h5⟩
            rw [remErrs_setFin_none s.tasks i hg]
            exact h3
          | some e =>
            have he : e = E := by
              have := mem_remErrs_of_getTask s.tasks i e hg
              rw [h3] at this
              simpa using this
            rw [step_taskDone_run_some s i e hg,
                submit_of_none { s with tasks := setFin s.tasks i } e h1, he]
            exact Or.inr rfl
    | parentCancel => simp [noExt] at ha
    | deliverSignal g => simp [noExt] at ha
    | bridgeCtx =>
      rw [step_bridgeCtx_notCanceled s h2]
      exact Or.inl ⟨h1, h2, h3, ⟨q, hq⟩, h5⟩
    | bridgeSig =>
      rw [step_bridgeSig_noBuf s h5]
      exact Or.inl ⟨h1, h2, h3, ⟨q, hq⟩, h5⟩
    | mgrCancel =>
      rw [step_mgrCancel_notCanceled s h2]
      exact Or.inl ⟨h1, h2, h3, ⟨q, hq⟩, h5⟩
    | mgrDrainStep =>
      rw [step_mgrDrainStep_accepting s q hq]
      exact Or.inl ⟨h1, h2, h3, ⟨q, hq⟩, h5⟩
    | mgrDone =>
      rw [step_mgrDone_accepting s q hq]
      exact Or.inl ⟨h1, h2, h3, ⟨q, hq⟩, h5⟩
    | callOnShutdown h =>
      rw [step_callOnShutdown]
      exact Or.inl ⟨h1, h2, h3, ⟨q, hq⟩, h5⟩
    | handoff h =>
      by_cases hp : h ∈ s.pending
      · rw [step_handoff_pos s q h hq hp]
        exact Or.inl ⟨h1, h2, h3, ⟨q ++ [h], rfl⟩, h5⟩
      · rw [step_handoff_notMem s q h hq hp]
        exact Or.inl ⟨h1, h2, h3, ⟨q, hq⟩, h5⟩
    | inlineRun h =>
      rw [step_inlineRun_notCanceled s h h2]
      exact Or.inl ⟨h1, h2, h3, ⟨q, hq⟩, h5⟩
  · refine Or.inr ?_
    rw [step_errSlot, hB]
    rfl

theorem firstErrInv_run (E : SvcError) (acts : List Act) : ∀ s : SvcState,
    firstErrInv E s → (∀ a ∈ acts, noExt a = true) →
    firstErrInv E (runActs s acts) := by
  induction acts with
  | nil => intro s h _; simpa using h
  | cons a rest ih =>
    intro s h hall
    exact ih (step s a) (firstErrInv_step E s a (hall a (by simp)) h)
      (fun b hb => hall b (by simp [hb]))

theorem firstErrInv_NewService (sigs : List Sig) (rs : List (Option SvcError))
    (E : SvcError) (hE : errsOf rs = [E]) :
    firstErrInv E (NewService sigs rs) := by
  refine Or.inl ⟨rfl, rfl, ?_, ⟨[], rfl⟩, rfl⟩
  show remErrs (rs.map TaskSt.run) = [E]
  rw [remErrs_map_run, hE]

/-- C1: if among the concurrently spawned tasks exactly one returns a
non-nil error `E` (and no signal or parent cancellation intervenes),
then whenever `Wait` returns it returns an error equal to `E`, and
every one of the tasks, the hook manager, and the bridge (if started)
has completed by then. -/
theorem wait_returns_unique_error (sigs : List Sig)
    (rs : List (Option SvcError)) (acts : List Act) (E : SvcError)
    (hE : errsOf rs = [E]) (hext : ∀ a ∈ acts, noExt a = true)
    (hw : waitReady (runActs (NewService sigs rs) acts) = true) :
    waitResult (runActs (NewService sigs rs) acts) = some E ∧
    allFin (runActs (NewService sigs rs) acts).tasks = true ∧
    (runActs (NewService sigs rs) acts).mgr = MgrSt.fin ∧
    (runActs (NewService sigs rs) acts).bridge.joined = true := by
  obtain ⟨h1, h2, h3⟩ := waitReady_parts _ hw
  have hinv := firstErrInv_run E acts _
    (firstErrInv_NewService sigs rs E hE) hext
  rcases hinv with ⟨_, _, _, ⟨q, hq⟩, _⟩ | hB
  · rw [hq] at h2; cases h2
  · exact ⟨hB, h1, h2, h3⟩

theorem wait_returns_unique_error_witness :
    errsOf ([none, some (SvcError.task 7)] : List (Option SvcError))
        = [SvcError.task 7] ∧
    waitReady (runActs (NewService [] [none, some (SvcError.task 7)])
        [Act.taskDone 1, Act.taskDone 0, Act.mgrCancel, Act.mgrDone]) = true ∧
    waitResult (runActs (NewService [] [none, some (SvcError.task 7)])
        [Act.taskDone 1, Act.taskDone 0, Act.mgrCancel, Act.mgrDone])
        = some (SvcError.task 7) :=
  ⟨by decide, by decide,
    (wait_returns_unique_error [] [none, some (SvcError.task 7)]
      [Act.taskDone 1, Act.taskDone 0, Act.mgrCancel, Act.mgrDone]
      (SvcError.task 7) (by decide) (by decide) (by decide)).1⟩

/-- C2: exactly one TerminationCause is ever retained — the slot holds
the first error submitted in completion order, every later one is
discarded (the slot is write-once), and `Wait` returns exactly the
slot. -/
theorem first_error_retained (sigs : List Sig) (rs : List (Option SvcError))
    (acts : List Act) :
    (runActs (NewService sigs rs) acts).errSlot
        = (runSubs (NewService sigs rs) acts).head? ∧
    (∀ (e : SvcError) (more : List Act),
       (runActs (NewService sigs rs) acts).errSlot = some e →
       (runActs (NewService sigs rs) (acts ++ more)).errSlot = some e) ∧
    waitResult (runActs (NewService sigs rs) acts)
        = (runActs (NewService sigs rs) acts).errSlot := by
  refine ⟨?_, ?_, rfl⟩
  · rw [runActs_errSlot]; rfl
  · intro e more h
    rw [runActs_append]
    exact runActs_errSlot_some more _ e h

theorem first_error_retained_witness :
    (runActs (NewService [] [some (SvcError.task 1), some (SvcError.task 2)])
        [Act.taskDone 0]).errSlot = some (SvcError.task 1) ∧
    (runActs (NewService [] [some (SvcError.task 1), some (SvcError.task 2)])
        ([Act.taskDone 0] ++ [Act.taskDone 1])).errSlot
        = some (SvcError.task 1) :=
  ⟨by decide,
    (first_error_retained [] [some (SvcError.task 1), some (SvcError.task 2)]
        [Act.taskDone 0]).2.1 (SvcError.task 1) [Act.taskDone 1] (by decide)⟩

/-- C5: `Wait` blocks until every spawned task and the internal
management tasks (hook manager, and signal bridge when started) have
returned; it then returns the retained TerminationCause — the first
submitted error.  Its nil-returning case (no task failed and the
context was never cancelled) is unreachable: under those hypotheses
`Wait` never becomes ready. -/
theorem wait_joins_all (sigs : List Sig) (rs : List (Option SvcError))
    (acts : List Act) :
    (waitReady (runActs (NewService sigs rs) acts) = true →
       allFin (runActs (NewService sigs rs) acts).tasks = true ∧
       (runActs (NewService sigs rs) acts).mgr = MgrSt.fin ∧
       (runActs (NewService sigs rs) acts).bridge.joined = true ∧
       waitResult (runActs (NewService sigs rs) acts)
           = (runSubs (NewService sigs rs) acts).head?) ∧
    (errsOf rs = [] → (∀ a ∈ acts, noExt a = true) →
       waitReady (runActs (NewService sigs rs) acts) = false) := by
  constructor
  · intro hw
    obtain ⟨h1, h2, h3⟩ := waitReady_parts _ hw
    refine ⟨h1, h2, h3, ?_⟩
    show (runActs (NewService sigs rs) acts).errSlot = _
    rw [runActs_errSlot]; rfl
  · intro hnil hext
    cases hw : waitReady (runActs (NewService sigs rs) acts) with
    | false => rfl
    | true =>
      exfalso
      have hfin := (waitReady_parts _ hw).2.1
      have hqui := quiescent_run acts _ (quiescent_NewService sigs rs hnil) hext
      obtain ⟨q, hq⟩ := hqui.2.2.2.1
      rw [hq] at hfin
      cases hfin

theorem wait_joins_all_witness :
    waitReady (runActs (NewService [] [some (SvcError.task 3)])
        [Act.taskDone 0, Act.mgrCancel, Act.mgrDone]) = true ∧
    (allFin (runActs (NewService [] [some (SvcError.task 3)])
        [Act.taskDone 0, Act.mgrCancel, Act.mgrDone]).tasks = true ∧
     (runActs (NewService [] [some (SvcError.task 3)])
        [Act.taskDone 0, Act.mgrCancel, Act.mgrDone]).mgr = MgrSt.fin ∧
     (runActs (NewService [] [some (SvcError.task 3)])
        [Act.taskDone 0, Act.mgrCancel, Act.mgrDone]).bridge.joined = true ∧
     waitResult (runActs (NewService [] [some (SvcError.task 3)])
        [Act.taskDone 0, Act.mgrCancel, Act.mgrDone])
        = (runSubs (NewService [] [some (SvcError.task 3)])
        [Act.taskDone 0, Act.mgrCancel, Act.mgrDone]).head?) :=
  ⟨by decide,
    (wait_joins_all [] [some (SvcError.task 3)]
        [Act.taskDone 0, Act.mgrCancel, Act.mgrDone]).1 (by decide)⟩

/-- Running the drain: from a manager in state `draining l`, the
steps of the drain execute exactly the hooks `l`, in order, appending them
to the observable trace. -/
theorem drain_run (l : List Nat) : ∀ s : SvcState, s.mgr = MgrSt.draining l →
    (runActs s (List.replicate l.length Act.mgrDrainStep)).mgr
        = MgrSt.draining [] ∧
    (runActs s (List.replicate l.length Act.mgrDrainStep)).ranHooks
        = s.ranHooks ++ l := by
  induction l with
  | nil =>
    intro s hm
    simp only [List.length_nil, List.replicate_zero, runActs_nil]
    exact ⟨hm, by simp⟩
  | cons h rest ih =>
    intro s hm
    rw [List.length_cons, List.replicate_succ, runActs_cons,
        step_mgrDrainStep_pos s h rest hm]
    obtain ⟨h1, h2⟩ :=
      ih { s with mgr := MgrSt.draining rest, ranHooks := s.ranHooks ++ [h] } rfl
    refine ⟨h1, ?_⟩
    rw [h2]
    simp

/-- C3: if hooks `q = [h1, …, hk]` have been handed to the manager (in
that registration order) by the time it observes cancellation, the
manager executes exactly those hooks, sequentially, in reverse
registration order `hk, …, h1`, and then returns; afterwards the queue
is frozen — a handoff to the finished manager is a no-op, so late hooks
bypass the queue; and before cancellation is observed the queue is
append-only: a successful handoff appends to its end and runs
nothing. -/
theorem hooks_drain_reverse_order (s : SvcState) (q : List Nat)
    (hm : s.mgr = MgrSt.accepting q) (hc : s.canceled = true) :
    ((runActs s (Act.mgrCancel :: (List.replicate q.length Act.mgrDrainStep
        ++ [Act.mgrDone]))).ranHooks = s.ranHooks ++ q.reverse ∧
     (runActs s (Act.mgrCancel :: (List.replicate q.length Act.mgrDrainStep
        ++ [Act.mgrDone]))).mgr = MgrSt.fin) ∧
    (∀ h : Nat,
       step (runActs s (Act.mgrCancel :: (List.replicate q.length
           Act.mgrDrainStep ++ [Act.mgrDone]))) (Act.handoff h)
         = runActs s (Act.mgrCancel :: (List.replicate q.length
           Act.mgrDrainStep ++ [Act.mgrDone]))) ∧
    (∀ h : Nat, h ∈ s.pending →
       (step s (Act.handoff h)).mgr = MgrSt.accepting (q ++ [h]) ∧
       (step s (Act.handoff h)).ranHooks = s.ranHooks) := by
  have hlen : List.replicate q.length Act.mgrDrainStep
      = List.replicate q.reverse.length Act.mgrDrainStep := by
    rw [List.length_reverse]
  have hrun : runActs s (Act.mgrCancel :: (List.replicate q.length
      Act.mgrDrainStep ++ [Act.mgrDone]))
      = step (runActs { s with mgr := MgrSt.draining q.reverse }
          (List.replicate q.reverse.length Act.mgrDrainStep)) Act.mgrDone := by
    rw [runActs_cons, step_mgrCancel_pos s q hm hc, hlen, runActs_append]
    rfl
  obtain ⟨hd1, hd2⟩ :=
    drain_run q.reverse { s with mgr := MgrSt.draining q.reverse } rfl
  have hfinal := step_mgrDone_pos _ hd1
  refine ⟨⟨?_, ?_⟩, ?_, ?_⟩
  · rw [hrun, hfinal, (submit_rest _ _).2.2.2.2.2.2]
    exact hd2
  · rw [hrun, hfinal, (submit_rest _ _).2.1]
  · intro h
    refine step_handoff_notAccepting _ h ?_
    intro q2 habs
    rw [hrun, hfinal, (submit_rest _ _).2.1] at habs
    cases habs
  · intro h hp
    rw [step_handoff_pos s q h hm hp]
    exact ⟨rfl, rfl⟩

/-- A concrete cancelled state with hooks 1, 2, 3 queued, used to
instantiate the drain theorem. -/
def drainDemoState : SvcState :=
  { errSlot := some (SvcError.task 0)
    canceled := true
    tasks := []
    mgr := MgrSt.accepting [1, 2, 3]
    bridge := BridgeSt.off
    sigBuf := none
    sigs := []
    pending := []
    ranHooks := [] }

theorem hooks_drain_reverse_order_witness :
    drainDemoState.mgr = MgrSt.accepting [1, 2, 3] ∧
    drainDemoState.canceled = true ∧
    (runActs drainDemoState
      (Act.mgrCancel :: (List.replicate ([1, 2, 3] : List Nat).length
        Act.mgrDrainStep ++ [Act.mgrDone]))).ranHooks = [3, 2, 1] :=
  ⟨rfl, rfl,
    (hooks_drain_reverse_order drainDemoState [1, 2, 3] rfl rfl).1.1⟩

theorem hooks_unrun_until_cancellation_witness :
    errsOf ([none] : List (Option SvcError)) = [] ∧
    (∀ a ∈ ([Act.callOnShutdown 1, Act.handoff 1, Act.callOnShutdown 2,
      Act.handoff 2] : List Act), noExt a = true) ∧
    (runActs (NewService [] [none]) [Act.callOnShutdown 1, Act.handoff 1,
      Act.callOnShutdown 2, Act.handoff 2]).ranHooks = [] ∧
    (runActs (NewService [] [none]) [Act.callOnShutdown 1, Act.handoff 1,
      Act.callOnShutdown 2, Act.handoff 2]).mgr = MgrSt.accepting [1, 2] :=
  ⟨by decide, by decide,
    (hooks_unrun_until_cancellation [] [none] _ (by decide) (by decide)).1,
    by decide⟩

/-- C7: the `Error` method of a `SignalError` holding signal `s`
returns exactly `"received "` concatenated with the own description of `s`
`s.String()` (service.go:101-103). -/
theorem signalError_message (g : Sig) :
    (SignalError.mk g).Error = "received " ++ g.String := rfl

/-- C6: the signal bridge goroutine is started if and only if at least
one signal is configured at construction (service.go:30); while
waiting, observing cancellation makes it return the shared context
cancellation error, and a buffered signal makes it return a
`SignalError` identifying that signal (service.go:33-40). -/
theorem signal_bridge_spec (sigs : List Sig) (rs : List (Option SvcError)) :
    ((NewService sigs rs).bridge = BridgeSt.waiting ↔ sigs ≠ []) ∧
    ((NewService sigs rs).bridge = BridgeSt.off ↔ sigs = []) ∧
    (∀ s : SvcState, s.bridge = BridgeSt.waiting → s.canceled = true →
       (step s Act.bridgeCtx).bridge = BridgeSt.fin ∧
       stepSubs s Act.bridgeCtx = [SvcError.ctxErr]) ∧
    (∀ (s : SvcState) (g : Sig), s.bridge = BridgeSt.waiting →
       s.sigBuf = some g →
       (step s Act.bridgeSig).bridge = BridgeSt.fin ∧
       stepSubs s Act.bridgeSig
         = [SvcError.signal (SignalError.mk g)]) := by
  refine ⟨?_, ?_, ?_, ?_⟩
  · cases sigs <;> simp [NewService]
  · cases sigs <;> simp [NewService]
  · intro s hb hc
    constructor
    · rw [step_bridgeCtx_pos s hb hc]
      exact (submit_rest _ _).2.2.1
    · simp [stepSubs, stepCore, hb, hc]
  · intro s g hb hs
    constructor
    · rw [step_bridgeSig_pos s g hb hs]
      exact (submit_rest _ _).2.2.1
    · simp [stepSubs, stepCore, hb, hs]

/-- A state whose bridge is waiting with the example signal already
buffered, used to instantiate the bridge theorem. -/
def bridgeDemoState : SvcState :=
  { errSlot := none
    canceled := false
    tasks := []
    mgr := MgrSt.accepting []
    bridge := BridgeSt.waiting
    sigBuf := some (Sig.mk "user defined signal 1")
    sigs := [Sig.mk "user defined signal 1"]
    pending := []
    ranHooks := [] }

theorem signal_bridge_spec_witness :
    bridgeDemoState.bridge = BridgeSt.waiting ∧
    bridgeDemoState.sigBuf = some (Sig.mk "user defined signal 1") ∧
    ((step bridgeDemoState Act.bridgeSig).bridge = BridgeSt.fin ∧
     stepSubs bridgeDemoState Act.bridgeSig
       = [SvcError.signal (SignalError.mk (Sig.mk "user defined signal 1"))]) :=
  ⟨rfl, rfl,
    (signal_bridge_spec [] []).2.2.2 bridgeDemoState
      (Sig.mk "user defined signal 1") rfl rfl⟩

/-- C4 as stated is false on the code: with the shared context already
cancelled but the manager still sitting at its select, the
`s.shutdownC <- f` case of `OnShutdown` can win the race
(service.go:88 versus 89 — in Go a `select` with several ready cases
picks one of them arbitrarily), so the registration call returns with
the hook appended to the queue and not yet executed.  Concrete run:
task 0 fails, cancelling the context; afterwards a caller invokes
`OnShutdown` with hook 7 and the manager accepts the handoff: the call
has completed (nothing pending), yet no hook has run and hook 7 sits
in the queue. -/
theorem late_hook_not_synchronous_cex :
    (runActs (NewService [] [some (SvcError.task 0)])
        [Act.taskDone 0]).canceled = true ∧
    (runActs (NewService [] [some (SvcError.task 0)])
        [Act.taskDone 0, Act.callOnShutdown 7, Act.handoff 7]).pending = [] ∧
    (runActs (NewService [] [some (SvcError.task 0)])
        [Act.taskDone 0, Act.callOnShutdown 7, Act.handoff 7]).ranHooks = [] ∧
    (runActs (NewService [] [some (SvcError.task 0)])
        [Act.taskDone 0, Act.callOnShutdown 7, Act.handoff 7]).mgr
        = MgrSt.accepting [7] := by
  decide

/-- C4 amended: for a hook pending in `OnShutdown` while the shared
context is already cancelled, the `<-s.doneC` branch is always enabled
and completes the call, running the hook exactly once, synchronously
on the caller, before the call returns — so the call never deadlocks;
but if the manager is still at its select, the handoff may win the
race instead, in which case the hook is appended to the queue without
running during the call. -/
theorem late_hook_amended (s : SvcState) (h : Nat)
    (hc : s.canceled = true) (hp : h ∈ s.pending) :
    ((step s (Act.inlineRun h)).pending = s.pending.erase h ∧
     (step s (Act.inlineRun h)).ranHooks = s.ranHooks ++ [h]) ∧
    (∀ q : List Nat, s.mgr = MgrSt.accepting q →
       (step s (Act.handoff h)).pending = s.pending.erase h ∧
       (step s (Act.handoff h)).mgr = MgrSt.accepting (q ++ [h]) ∧
       (step s (Act.handoff h)).ranHooks = s.ranHooks) := by
  constructor
  · rw [step_inlineRun_pos s h hc hp]
    exact ⟨rfl, rfl⟩
  · intro q hq
    rw [step_handoff_pos s q h hq hp]
    exact ⟨rfl, rfl, rfl⟩

/-- A cancelled state with one `OnShutdown` call pending (hook 5),
used to instantiate the amended late-hook theorem. -/
def lateHookDemoState : SvcState :=
  { errSlot := some (SvcError.task 0)
    canceled := true
    tasks := []
    mgr := MgrSt.accepting []
    bridge := BridgeSt.off
    sigBuf := none
    sigs := []
    pending := [5]
    ranHooks := [] }

theorem late_hook_amended_witness :
    lateHookDemoState.canceled = true ∧ 5 ∈ lateHookDemoState.pending ∧
    ((step lateHookDemoState (Act.inlineRun 5)).pending = [] ∧
     (step lateHookDemoState (Act.inlineRun 5)).ranHooks = [5]) :=
  ⟨rfl, by decide, (late_hook_amended lateHookDemoState 5 rfl (by decide)).1⟩

end GoService
